import Mathlib

/-!
# Verification of the Mem0 Cathedral API intelligence layer (`src/main.py`)

Shallow embedding of the pure core of the service: the lexical similarity
engine (`calculate_similarity`), the quality gate (`assess_memory_quality`),
the enrichment helper (`enrich_memory_context`), the legacy write path of
`add_memory` (quality gate → duplicate detector → persist), the consolidation
scanner (`consolidate_memories`), and the context assembler
(`get_context` / `_rerank_by_keywords` / `_format_context_for_llm`).

Modelling conventions:
* Python `str` is Lean `String`; `len` is `String.length` (code points).
* Python floats produced by `len(...) / len(...)` style divisions are
  modelled as exact rationals (`ℚ`).
* Python dicts returned by the remote store are modelled by the structure
  `MemEntry`, with one `Option` field per key the code reads and an
  `other` field for the untouched remainder of the dict.
* The HTTP calls are modelled by passing their outcome (`SearchOutcome`)
  as an argument; `datetime.now()` is modelled by a timestamp argument.
-/

namespace Mem0

/-- Python `str.lower()` modelled as per-character case folding
(faithful over the ASCII range the repository's fixed phrase lists use). -/
def pyLower (s : String) : String := ⟨s.data.map Char.toLower⟩

/-- Python `str.strip()`: drop leading and trailing whitespace. -/
def pyStrip (s : String) : String :=
  ⟨((s.data.dropWhile Char.isWhitespace).reverse.dropWhile Char.isWhitespace).reverse⟩

/-- Worker for `pySplit`: walks the characters, accumulating the current
(reversed) token, and emits a token at each whitespace boundary. -/
def pySplitAux : List Char → List Char → List String
  | [], acc => if acc = [] then [] else [⟨acc.reverse⟩]
  | c :: cs, acc =>
    if c.isWhitespace then
      if acc = [] then pySplitAux cs []
      else ⟨acc.reverse⟩ :: pySplitAux cs []
    else pySplitAux cs (c :: acc)

/-- Python `str.split()` with no separator: the maximal non-whitespace
runs of the string, in order; whitespace-only input gives `[]`. -/
def pySplit (s : String) : List String := pySplitAux s.data []

/-- Python's `needle in haystack` on strings: contiguous substring test. -/
def strContains (haystack needle : String) : Bool :=
  decide (needle.data <:+: haystack.data)

/-- Embeds `set(text.lower().split())`: the set of distinct case-folded
whitespace-separated tokens of a text. -/
def tokenSet (s : String) : Finset String := (pySplit (pyLower s)).toFinset

/-- Embeds `calculate_similarity` (src/main.py:138-152): word-based Jaccard
similarity between two texts, `0.0` when either token set is empty. -/
def calculate_similarity (text1 text2 : String) : ℚ :=
  let words1 := tokenSet text1
  let words2 := tokenSet text2
  if words1 = ∅ ∨ words2 = ∅ then 0
  else
    let inter := words1 ∩ words2
    let union := words1 ∪ words2
    if union = ∅ then 0 else (inter.card : ℚ) / (union.card : ℚ)

/-- Modelled from the spec (§4.1): "case-fold both texts, split on
whitespace into sets of distinct tokens … Compute Jaccard similarity =
|intersection| / |union| over the two token sets. Edge case: if either
token set is empty, return 0.0". -/
def jaccardSpec (a b : String) : ℚ :=
  if tokenSet a = ∅ ∨ tokenSet b = ∅ then 0
  else ((tokenSet a ∩ tokenSet b).card : ℚ) / ((tokenSet a ∪ tokenSet b).card : ℚ)

/-- Constant `MIN_MEMORY_LENGTH` (src/main.py:25). -/
def MIN_MEMORY_LENGTH : ℕ := 20
/-- Constant `MIN_WORD_COUNT` (src/main.py:26). -/
def MIN_WORD_COUNT : ℕ := 4
/-- Constant `SIMILARITY_THRESHOLD` (src/main.py:27). -/
def SIMILARITY_THRESHOLD : ℚ := 85 / 100

/-- List `low_value_patterns` (src/main.py:86-89). -/
def low_value_patterns : List String :=
  ["ok", "okay", "got it", "understood", "sure", "thanks", "thank you",
   "yes", "no", "maybe", "i see", "alright", "cool", "nice"]

/-- List `good_indicators` (src/main.py:98-103). -/
def good_indicators : List String :=
  ["prefer", "like", "love", "hate", "dislike", "always", "never",
   "project", "work", "use", "technology", "tool", "language",
   "name is", "location", "timezone", "schedule", "routine",
   "goal", "objective", "plan", "want to", "need to"]

/-- The quality dict built by `assess_memory_quality`. -/
structure QualityVerdict where
  should_save : Bool
  issues : List String
  score : Int
deriving DecidableEq, Repr

/-- Embeds `assess_memory_quality` (src/main.py:61-114), with each in-place
mutation of the `quality` dict rendered as a successive `let`. -/
def assess_memory_quality (content : String) : QualityVerdict :=
  let quality : QualityVerdict := ⟨true, [], 100⟩
  -- Check length
  let quality :=
    if content.length < MIN_MEMORY_LENGTH then
      ⟨false, quality.issues ++ ["Too short (min 20 chars)"], quality.score - 50⟩
    else quality
  -- Check word count
  let word_count := (pySplit content).length
  let quality :=
    if word_count < MIN_WORD_COUNT then
      ⟨false, quality.issues ++ ["Too few words (min 4 words)"], quality.score - 30⟩
    else quality
  -- Check for low-value patterns
  let content_lower := pyStrip (pyLower content)
  let quality :=
    if content_lower ∈ low_value_patterns then
      ⟨false, quality.issues ++ ["Low-value acknowledgment"], quality.score - 40⟩
    else quality
  -- Check for contextual information (good indicators)
  let has_context := good_indicators.any (fun indicator => strContains content_lower indicator)
  let quality :=
    if has_context then ⟨quality.should_save, quality.issues, quality.score + 20⟩
    else quality
  -- Penalize very long content
  let quality :=
    if content.length > 500 then
      ⟨quality.should_save, quality.issues ++ ["Very long (may need summarization)"], quality.score - 10⟩
    else quality
  quality

/-- Embeds `enrich_memory_context` (src/main.py:117-135); the wall-clock
timestamp taken from `datetime.now(timezone.utc).isoformat()` is passed
in as `timestamp`. -/
def enrich_memory_context (content : String) (timestamp : String) : String :=
  let enriched := content
  let enriched :=
    if strContains (pyLower content) "prefer" && !(strContains (pyLower content) "user") then
      "User preference: " ++ content
    else enriched
  enriched ++ "\n[Captured: " ++ timestamp ++ "]"

/-! ## Data model for the HTTP-facing operations -/

/-- A memory object handled by the endpoints: one `Option` field per dict
key the code reads (`id`, `memory`, `score`, `categories`, `_rerank_score`,
with `none` meaning the key is absent) plus the untouched remainder of the
dict in `other`. -/
structure MemEntry where
  id : Option String := none
  memory : Option String := none
  score : Option ℚ := none
  categories : Option (List String) := none
  rerank_score : Option ℚ := none
  other : List (String × String) := []
deriving DecidableEq, Repr, Inhabited

/-- Outcome of an upstream Mem0 search call as observed by the caller:
either a normalized result list, or any failure (network error, non-200
status, or malformed body — all of which the code treats alike). -/
inductive SearchOutcome where
  | ok (results : List MemEntry)
  | failed (message : String)
deriving DecidableEq, Repr

/-- Observable result of the legacy content mode of `add_memory`
(src/main.py:333-404): a silent quality rejection `{"ok": False}`, a silent
duplicate rejection `{"ok": False}` (recording which memory matched), or a
persisted write with the enriched content sent to the store. -/
inductive AddLegacyResult where
  | qualityRejected
  | duplicate (found : MemEntry)
  | persisted (enriched_content : String) (quality_score : Int)
deriving DecidableEq, Repr

/-- Legacy content mode of `add_memory` (src/main.py:333-404).
The duplicate-check HTTP call is passed in as `search`; a failed call
(exception or non-200 status) yields no duplicate; otherwise the first
fetched memory whose similarity strictly exceeds `SIMILARITY_THRESHOLD`
is reported as a duplicate. The wall-clock timestamp used by enrichment
is passed in as `timestamp`. -/
def add_memory_legacy (content : String) (force : Bool) (search : SearchOutcome)
    (timestamp : String) : AddLegacyResult :=
  let quality := assess_memory_quality content
  if !force && !quality.should_save then .qualityRejected
  else
    let dup : Option MemEntry :=
      match search with
      | .failed _ => none
      | .ok similar_memories =>
          similar_memories.find? (fun mem =>
            decide (calculate_similarity content (mem.memory.getD "") > SIMILARITY_THRESHOLD))
    match dup with
    | some mem => .duplicate mem
    | none => .persisted (enrich_memory_context content timestamp) quality.score

/-! ## Context assembler -/

/-- The per-entry mutation performed by the loop body of
`_rerank_by_keywords` (src/main.py:577-583): count how many distinct query
keywords occur as substrings of the lower-cased memory text and set
`_rerank_score` to `base_score * (1 + matches * boost)`. -/
def boostEntry (keywords : Finset String) (boost : ℚ) (mem : MemEntry) : MemEntry :=
  let content := pyLower (mem.memory.getD "")
  let matchCount := (keywords.filter (fun kw => strContains content kw = true)).card
  let base_score := mem.score.getD (1 / 2)
  { mem with rerank_score := some (base_score * (1 + (matchCount : ℚ) * boost)) }

/-- The sort key `x.get("_rerank_score", 0)` (src/main.py:585). -/
def rerankKey (mem : MemEntry) : ℚ := mem.rerank_score.getD 0

/-- The comparison used by the final sort of `_rerank_by_keywords`:
descending by `_rerank_score`. -/
def rerankLE (a b : MemEntry) : Bool := decide (rerankKey b ≤ rerankKey a)

/-- Embeds `_rerank_by_keywords` (src/main.py:573-585). Python's `sorted` with
`reverse=True` is a stable descending sort; `List.mergeSort` with the
reversed comparison models it (any two stable sorts of the same key agree). -/
def rerank_by_keywords (memories : List MemEntry) (query : String)
    (boost : ℚ := 15 / 100) : List MemEntry :=
  let keywords := (pySplit (pyLower query)).toFinset
  let scored := memories.map (boostEntry keywords boost)
  scored.mergeSort rerankLE

/-- Embeds `cats[0] if cats else "general"` over `mem.get("categories", ["general"])`
(src/main.py:596-597). -/
def firstCategory (mem : MemEntry) : String :=
  match mem.categories.getD ["general"] with
  | [] => "general"
  | c :: _ => c

/-- Python `str.title()` (ASCII model): a letter is upper-cased when the
previous character is not a letter, lower-cased otherwise. -/
def pyTitleAux : Bool → List Char → List Char
  | _, [] => []
  | prevAlpha, c :: cs => (if prevAlpha then c.toLower else c.toUpper) :: pyTitleAux c.isAlpha cs

/-- Python `str.title()`. -/
def pyTitle (s : String) : String := ⟨pyTitleAux false s.data⟩

/-- Embeds `category.replace("_", " ").title()` (src/main.py:606); the pattern is a
single character, so `replace` is a character map. -/
def categoryTitle (category : String) : String :=
  pyTitle ⟨category.data.map (fun ch => if ch = '_' then ' ' else ch)⟩

/-- One step of building the insertion-ordered `by_category` dict
(src/main.py:594-600). -/
def addToCategory (acc : List (String × List String)) (cat : String) (txt : String) :
    List (String × List String) :=
  if acc.any (fun p => p.1 = cat) then
    acc.map (fun p => if p.1 = cat then (p.1, p.2 ++ [txt]) else p)
  else acc ++ [(cat, [txt])]

/-- Embeds `_format_context_for_llm` (src/main.py:588-612). -/
def format_context_for_llm (memories : List MemEntry) : String :=
  if memories = [] then ""
  else
    let by_category := memories.foldl
      (fun acc mem => addToCategory acc (firstCategory mem) (mem.memory.getD "")) []
    let lines := ["## User Context\n"] ++ by_category.flatMap (fun p =>
      ("### " ++ categoryTitle p.1) :: (p.2.map (fun t => "- " ++ t) ++ [""]))
    String.intercalate "\n" lines

/-- The response dict of `get_context` (src/main.py:555-570):
`total_searched` is present only on the success path, `error` only on the
failure path. -/
structure ContextResponse where
  context : String
  memories : List MemEntry
  count : ℕ
  total_searched : Option ℕ
  error : Option String
deriving DecidableEq, Repr

/-- Embeds `get_context` (src/main.py:490-570) from the point where the upstream
search outcome is known: on success, rerank, truncate to `max_memories`,
format; on any failure, the silent empty response. -/
def get_context (search : SearchOutcome) (current_message : String) (max_memories : ℕ) :
    ContextResponse :=
  match search with
  | .failed e =>
      { context := "", memories := [], count := 0, total_searched := none, error := some e }
  | .ok results =>
      let memories := rerank_by_keywords results current_message
      let top_memories := memories.take max_memories
      { context := format_context_for_llm top_memories
        memories := top_memories
        count := top_memories.length
        total_searched := some memories.length
        error := none }

/-! ## Consolidation scanner -/

/-- Embeds the key `f"{i}-{j}"` of src/main.py:764. -/
def pairKey (i j : ℕ) : String := toString i ++ "-" ++ toString j

/-- One entry of `consolidation_candidates` (src/main.py:776-782). -/
structure ConsolidationCandidate where
  memory1_id : Option String
  memory1_content : String
  memory2_id : Option String
  memory2_content : String
  similarity : ℚ
deriving DecidableEq, Repr

/-- Python `round` to the nearest integer with ties to even (banker's
rounding), on exact rationals. -/
def pyRoundHalfEven (q : ℚ) : ℤ :=
  let f := ⌊q⌋
  if q - f < 1 / 2 then f
  else if q - f > 1 / 2 then f + 1
  else if f % 2 = 0 then f else f + 1

/-- Embeds `round(x, 2)` (src/main.py:781). -/
def pyRound2 (q : ℚ) : ℚ := (pyRoundHalfEven (q * 100) : ℚ) / 100

/-- The candidate dict appended at src/main.py:776-782. -/
def mkCandidate (mem1 mem2 : MemEntry) (similarity : ℚ) : ConsolidationCandidate :=
  { memory1_id := mem1.id
    memory1_content := mem1.memory.getD ""
    memory2_id := mem2.id
    memory2_content := mem2.memory.getD ""
    similarity := pyRound2 similarity }

/-- Inner loop of `consolidate_memories` (src/main.py:763-782):
`for j, mem2 in enumerate(all_memories[i+1:], start=i+1)`, threading the
`checked` key set and appending candidates whose similarity strictly
exceeds `0.7`. -/
def consolidateInner (mem1 : MemEntry) (i : ℕ) :
    List MemEntry → ℕ → List String → List ConsolidationCandidate × List String
  | [], _, checked => ([], checked)
  | mem2 :: rest, j, checked =>
    if pairKey i j ∈ checked then consolidateInner mem1 i rest (j + 1) checked
    else
      let checked := pairKey i j :: checked
      let similarity := calculate_similarity (mem1.memory.getD "") (mem2.memory.getD "")
      let tail := consolidateInner mem1 i rest (j + 1) checked
      if similarity > 7 / 10 then (mkCandidate mem1 mem2 similarity :: tail.1, tail.2)
      else tail

/-- Outer loop of `consolidate_memories` (src/main.py:762): `for i, mem1 in
enumerate(all_memories)`. -/
def consolidateOuter : List MemEntry → ℕ → List String →
    List ConsolidationCandidate × List String
  | [], _, checked => ([], checked)
  | mem1 :: rest, i, checked =>
    let inner := consolidateInner mem1 i rest (i + 1) checked
    let outer := consolidateOuter rest (i + 1) inner.2
    (inner.1 ++ outer.1, outer.2)

/-- The `consolidation_candidates` list built by src/main.py:759-782. -/
def consolidation_candidates (all_memories : List MemEntry) : List ConsolidationCandidate :=
  (consolidateOuter all_memories 0 []).1

/-- The three response shapes of `consolidate_memories`
(src/main.py:755-797). -/
inductive ConsolidateResponse where
  | noMemories
  | noCandidates (total_memories : ℕ)
  | candidates (dry_run : Bool) (cands : List ConsolidationCandidate) (count : ℕ)
deriving DecidableEq, Repr

/-- Embeds `consolidate_memories` (src/main.py:747-797) from the point where the
user's memory list has been fetched. -/
def consolidate_memories (all_memories : List MemEntry) (dry_run : Bool) :
    ConsolidateResponse :=
  if all_memories = [] then .noMemories
  else
    let cands := consolidation_candidates all_memories
    if cands = [] then .noCandidates all_memories.length
    else .candidates dry_run cands cands.length

/-- The `candidates` field of a `consolidate_memories` response, when present. -/
def responseCandidates : ConsolidateResponse → Option (List ConsolidationCandidate)
  | .candidates _ cs _ => some cs
  | _ => none

/-- The echoed `dry_run` field of a `consolidate_memories` response, when
present. -/
def responseDryRun : ConsolidateResponse → Option Bool
  | .candidates d _ _ => some d
  | _ => none

/-- A `consolidate_memories` response with its echoed `dry_run` flag
normalized away, to compare responses across flag values. -/
def stripDryRun : ConsolidateResponse → ConsolidateResponse
  | .candidates _ cs c => .candidates true cs c
  | r => r

/-- The enumeration, in first-index-then-second-index order, of the index
pairs `(i, j)` with `i < j < n`. -/
def indexPairs (n : ℕ) : List (ℕ × ℕ) :=
  (List.range n).flatMap (fun i => ((List.range n).filter (fun j => i < j)).map (fun j => (i, j)))

/-- The consolidation scan as one pass over the ordered pair enumeration:
for each `(i, j)` with `i < j`, emit a candidate iff the pair's similarity
strictly exceeds `0.7`. -/
def specScan (all_memories : List MemEntry) : List ConsolidationCandidate :=
  (indexPairs all_memories.length).filterMap (fun p =>
    let m1 := all_memories.getD p.1 default
    let m2 := all_memories.getD p.2 default
    let s := calculate_similarity (m1.memory.getD "") (m2.memory.getD "")
    if s > 7 / 10 then some (mkCandidate m1 m2 s) else none)

/-- The inner consolidation loop without the (provably inert) `checked`
bookkeeping: one row of candidates for `mem1` against each later memory. -/
def innerClean (mem1 : MemEntry) : List MemEntry → List ConsolidationCandidate
  | [] => []
  | mem2 :: rest =>
    let similarity := calculate_similarity (mem1.memory.getD "") (mem2.memory.getD "")
    if similarity > 7 / 10 then mkCandidate mem1 mem2 similarity :: innerClean mem1 rest
    else innerClean mem1 rest

/-- The outer consolidation loop without the `checked` bookkeeping. -/
def outerClean : List MemEntry → List ConsolidationCandidate
  | [] => []
  | mem1 :: rest => innerClean mem1 rest ++ outerClean rest

/-- Decimal value of a digit string; inverts `Nat.repr` in the `pairKey`
injectivity proof. -/
def digitsVal (l : List Char) : ℕ := l.foldl (fun a c => 10 * a + (c.toNat - 48)) 0

/-! ## Helper lemmas -/

lemma tokenSet_card_pos {x : String} (hx : tokenSet x ≠ ∅) : 0 < ((tokenSet x).card : ℚ) := by
  exact_mod_cast Finset.card_pos.mpr (Finset.nonempty_iff_ne_empty.mpr hx)

lemma calculate_similarity_self {x : String} (hx : tokenSet x ≠ ∅) :
    calculate_similarity x x = 1 := by
  simp [calculate_similarity, hx, Finset.inter_self, Finset.union_self,
    div_self (ne_of_gt (tokenSet_card_pos hx))]

lemma rerankLE_trans (a b c : MemEntry) (hab : rerankLE a b = true)
    (hbc : rerankLE b c = true) : rerankLE a c = true := by
  simp only [rerankLE, decide_eq_true_eq] at hab hbc ⊢
  exact le_trans hbc hab

lemma rerankLE_total (a b : MemEntry) : (rerankLE a b || rerankLE b a) = true := by
  simp only [rerankLE, Bool.or_eq_true, decide_eq_true_eq]
  exact le_total _ _

lemma mergeSort_pair {α : Type _} (le : α → α → Bool) (a b : α) :
    List.mergeSort [a, b] le = if le a b then [a, b] else [b, a] := by
  simp only [List.mergeSort]
  split <;> simp_all [List.merge]

/-- When the quality gate does not block the write, `add_memory_legacy`
reduces to the duplicate-check-then-persist branch. -/
lemma add_memory_legacy_of_quality (content timestamp : String) (force : Bool)
    (search : SearchOutcome)
    (hq : force = true ∨ (assess_memory_quality content).should_save = true) :
    add_memory_legacy content force search timestamp =
      match
        (match search with
          | .failed _ => (none : Option MemEntry)
          | .ok similar_memories =>
              similar_memories.find? (fun mem =>
                decide (calculate_similarity content (mem.memory.getD "") > SIMILARITY_THRESHOLD)))
      with
      | some mem => .duplicate mem
      | none => .persisted (enrich_memory_context content timestamp)
          (assess_memory_quality content).score := by
  rcases hq with h | h <;> simp [add_memory_legacy, h]

/-! ## Theorems about the similarity engine and the quality gate -/

/-- C1: `calculate_similarity` is the Jaccard similarity of the two sets of
distinct case-folded whitespace-separated tokens, is `0.0` when either token
set is empty, and always lies in `[0, 1]`. -/
theorem calculate_similarity_is_jaccard (a b : String) :
    calculate_similarity a b = jaccardSpec a b ∧
    ((tokenSet a = ∅ ∨ tokenSet b = ∅) → calculate_similarity a b = 0) ∧
    0 ≤ calculate_similarity a b ∧ calculate_similarity a b ≤ 1 := by
  by_cases h : tokenSet a = ∅ ∨ tokenSet b = ∅
  · simp [calculate_similarity, jaccardSpec, h]
  · push_neg at h
    obtain ⟨ha, hb⟩ := h
    have hunion : (tokenSet a ∪ tokenSet b).Nonempty :=
      (Finset.nonempty_iff_ne_empty.mpr ha).mono Finset.subset_union_left
    have hune : tokenSet a ∪ tokenSet b ≠ ∅ := Finset.nonempty_iff_ne_empty.mp hunion
    have hcard : 0 < ((tokenSet a ∪ tokenSet b).card : ℚ) := by
      exact_mod_cast Finset.card_pos.mpr hunion
    have hle : (tokenSet a ∩ tokenSet b).card ≤ (tokenSet a ∪ tokenSet b).card :=
      Finset.card_le_card (Finset.inter_subset_left.trans Finset.subset_union_left)
    have heval : calculate_similarity a b =
        ((tokenSet a ∩ tokenSet b).card : ℚ) / ((tokenSet a ∪ tokenSet b).card : ℚ) := by
      simp [calculate_similarity, ha, hb, hune]
    refine ⟨?_, ?_, ?_, ?_⟩
    · simp [heval, jaccardSpec, ha, hb]
    · intro h; exact absurd h (by simp [ha, hb])
    · rw [heval]; positivity
    · rw [heval, div_le_one hcard]; exact_mod_cast hle

/-- Closed witness for C1 at a concrete input, discharging the
empty-token-set hypothesis of the edge-case conjunct. -/
theorem calculate_similarity_is_jaccard_witness :
    calculate_similarity "" "hello world" = 0 ∧
    calculate_similarity "" "hello world" = jaccardSpec "" "hello world" :=
  ⟨(calculate_similarity_is_jaccard "" "hello world").2.1 (Or.inl (by decide)),
   (calculate_similarity_is_jaccard "" "hello world").1⟩

/-- C2 counterexample: the claim asserts `similarity(x,x) == 1.0` for any
non-empty text `x`, but the whitespace-only text `" "` is non-empty while
its self-similarity is `0.0` (its token set is empty). -/
theorem calculate_similarity_reflexive_counterexample :
    (" " : String) ≠ "" ∧ calculate_similarity " " " " ≠ 1 := by
  refine ⟨by decide, ?_⟩
  have h : tokenSet " " = ∅ := by decide
  simp [calculate_similarity, h]

/-- C2 (amended): `calculate_similarity` is symmetric; `similarity(x,x) = 1.0`
for every `x` whose token set is non-empty (the original claim's "non-empty
`x`" fails on whitespace-only texts); and `similarity("", x) = 0.0` for all
`x`. -/
theorem calculate_similarity_algebra :
    (∀ a b, calculate_similarity a b = calculate_similarity b a) ∧
    (∀ x, tokenSet x ≠ ∅ → calculate_similarity x x = 1) ∧
    (∀ x, calculate_similarity "" x = 0) := by
  refine ⟨?_, ?_, ?_⟩
  · intro a b
    simp only [calculate_similarity, Finset.inter_comm, Finset.union_comm, or_comm]
  · exact fun x hx => calculate_similarity_self hx
  · intro x
    have h : tokenSet "" = ∅ := by decide
    simp [calculate_similarity, h]

/-- Closed witness for the amended C2 reflexivity statement at a concrete
input with a non-empty token set. -/
theorem calculate_similarity_algebra_witness :
    calculate_similarity "hello world" "hello world" = 1 :=
  calculate_similarity_algebra.2.1 "hello world" (by decide)

/-- C3: `assess_memory_quality` applies every rule independently to a running
score of 100 and collects every issue; `should_save` is false exactly when one
of the three reject-triggering rules fires (short length, low word count,
acknowledgment phrase); the long-content rule only subtracts 10 and records an
issue; the score is unclamped, as the concrete values `-20` and `120` show. -/
theorem assess_memory_quality_spec :
    (∀ c : String,
      ((assess_memory_quality c).should_save = true ↔
        ¬(c.length < MIN_MEMORY_LENGTH) ∧ ¬((pySplit c).length < MIN_WORD_COUNT) ∧
          pyStrip (pyLower c) ∉ low_value_patterns) ∧
      (assess_memory_quality c).score =
        100 - (if c.length < MIN_MEMORY_LENGTH then 50 else 0)
            - (if (pySplit c).length < MIN_WORD_COUNT then 30 else 0)
            - (if pyStrip (pyLower c) ∈ low_value_patterns then 40 else 0)
            + (if good_indicators.any (fun i => strContains (pyStrip (pyLower c)) i) then 20 else 0)
            - (if c.length > 500 then 10 else 0) ∧
      (assess_memory_quality c).issues =
        (if c.length < MIN_MEMORY_LENGTH then ["Too short (min 20 chars)"] else [])
        ++ (if (pySplit c).length < MIN_WORD_COUNT then ["Too few words (min 4 words)"] else [])
        ++ (if pyStrip (pyLower c) ∈ low_value_patterns then ["Low-value acknowledgment"] else [])
        ++ (if c.length > 500 then ["Very long (may need summarization)"] else [])) ∧
    (assess_memory_quality "ok").score = -20 ∧
    (assess_memory_quality "I prefer dark roast coffee every morning").score = 120 := by
  refine ⟨?_, by decide, by decide⟩
  intro c
  by_cases h1 : c.length < MIN_MEMORY_LENGTH <;>
  by_cases h2 : (pySplit c).length < MIN_WORD_COUNT <;>
  by_cases h3 : pyStrip (pyLower c) ∈ low_value_patterns <;>
  by_cases h4 : (good_indicators.any (fun i => strContains (pyStrip (pyLower c)) i)) = true <;>
  by_cases h5 : c.length > 500 <;>
  simp [assess_memory_quality, h1, h2, h3, h4, h5]

/-! ## Theorems about the legacy write path -/

/-- C4: in legacy content mode, once the quality gate does not block the
write, a duplicate is reported (a not-accepted result, nothing persisted)
exactly when some fetched memory's similarity strictly exceeds the 0.85
threshold; the memory selected is the first such one in the provided order;
and when none exceeds the threshold the write proceeds with the enriched
content. -/
theorem add_memory_duplicate_detection (content timestamp : String) (force : Bool)
    (mems : List MemEntry)
    (hq : force = true ∨ (assess_memory_quality content).should_save = true) :
    ((∃ m ∈ mems, calculate_similarity content (m.memory.getD "") > SIMILARITY_THRESHOLD) ↔
      ∃ m, add_memory_legacy content force (.ok mems) timestamp = .duplicate m) ∧
    (∀ pre m post, mems = pre ++ m :: post →
      calculate_similarity content (m.memory.getD "") > SIMILARITY_THRESHOLD →
      (∀ m' ∈ pre, ¬ calculate_similarity content (m'.memory.getD "") > SIMILARITY_THRESHOLD) →
      add_memory_legacy content force (.ok mems) timestamp = .duplicate m) ∧
    ((∀ m ∈ mems, ¬ calculate_similarity content (m.memory.getD "") > SIMILARITY_THRESHOLD) →
      add_memory_legacy content force (.ok mems) timestamp =
        .persisted (enrich_memory_context content timestamp)
          (assess_memory_quality content).score) := by
  rw [add_memory_legacy_of_quality content timestamp force _ hq]
  refine ⟨?_, ?_, ?_⟩
  · constructor
    · intro ⟨m, hm, hsim⟩
      have : ∃ x ∈ mems, (fun mem =>
          decide (calculate_similarity content (mem.memory.getD "") > SIMILARITY_THRESHOLD)) x := by
        exact ⟨m, hm, by simpa using hsim⟩
      rw [← List.find?_isSome] at this
      obtain ⟨m', hm'⟩ := Option.isSome_iff_exists.mp this
      exact ⟨m', by simp [hm']⟩
    · intro ⟨m, hm⟩
      rcases hfind : mems.find? (fun mem =>
          decide (calculate_similarity content (mem.memory.getD "") > SIMILARITY_THRESHOLD)) with
        _ | m'
      · simp [hfind] at hm
      · exact ⟨m', List.mem_of_find?_eq_some hfind, by simpa using List.find?_some hfind⟩
  · intro pre m post hsplit hsim hpre
    have hfind : mems.find? (fun mem =>
        decide (calculate_similarity content (mem.memory.getD "") > SIMILARITY_THRESHOLD)) =
        some m := by
      rw [List.find?_eq_some]
      exact ⟨by simpa using hsim, pre, post, hsplit, fun a ha => by simpa using hpre a ha⟩
    simp [hfind]
  · intro hnone
    have hfind : mems.find? (fun mem =>
        decide (calculate_similarity content (mem.memory.getD "") > SIMILARITY_THRESHOLD)) =
        none := by
      rw [List.find?_eq_none]
      exact fun x hx => by simpa using hnone x hx
    simp [hfind]

/-- Closed witness for C4: a candidate identical to the single fetched
memory (similarity 1 > 0.85) is reported as a duplicate of that memory. -/
theorem add_memory_duplicate_detection_witness :
    add_memory_legacy "I prefer dark roast coffee every morning" false
      (.ok [{ memory := some "I prefer dark roast coffee every morning" }]) "2025-01-01T00:00:00" =
      .duplicate { memory := some "I prefer dark roast coffee every morning" } := by
  have h := add_memory_duplicate_detection "I prefer dark roast coffee every morning"
    "2025-01-01T00:00:00" false [{ memory := some "I prefer dark roast coffee every morning" }]
    (Or.inr (by decide))
  refine h.2.1 [] { memory := some "I prefer dark roast coffee every morning" } [] rfl ?_
    (by intro m' hm'; simp at hm')
  have hs : calculate_similarity "I prefer dark roast coffee every morning"
      "I prefer dark roast coffee every morning" = 1 :=
    calculate_similarity_self (by decide)
  rw [SIMILARITY_THRESHOLD]
  simp only [Option.getD_some, hs]
  norm_num

/-- C5: in legacy content mode, when the upstream duplicate-check search
fails in any way (network error, non-200 status, malformed body), the write
is not aborted: no duplicate is reported and the candidate is enriched and
persisted. -/
theorem add_memory_search_failure_proceeds (content timestamp err : String) (force : Bool)
    (hq : force = true ∨ (assess_memory_quality content).should_save = true) :
    add_memory_legacy content force (.failed err) timestamp =
      .persisted (enrich_memory_context content timestamp)
        (assess_memory_quality content).score := by
  rw [add_memory_legacy_of_quality content timestamp force _ hq]

/-- Closed witness for C5 at a concrete accepted candidate and a failing
search. -/
theorem add_memory_search_failure_proceeds_witness :
    add_memory_legacy "I prefer dark roast coffee every morning" false
      (.failed "upstream timeout") "2025-01-01T00:00:00" =
      .persisted
        (enrich_memory_context "I prefer dark roast coffee every morning" "2025-01-01T00:00:00")
        (assess_memory_quality "I prefer dark roast coffee every morning").score :=
  add_memory_search_failure_proceeds _ _ _ false (Or.inr (by decide))

/-! ## Theorems about the context assembler -/

/-- C8: any upstream search failure is swallowed by `get_context`, which
returns an empty context string with count 0 and never propagates the error;
an empty result list likewise yields an empty context string (no heading
with no content) and count 0. -/
theorem get_context_silent_failure :
    (∀ (e msg : String) (n : ℕ), get_context (.failed e) msg n =
      { context := "", memories := [], count := 0, total_searched := none, error := some e }) ∧
    (∀ (msg : String) (n : ℕ), (get_context (.ok []) msg n).context = "" ∧
      (get_context (.ok []) msg n).count = 0) := by
  refine ⟨fun e msg n => rfl, fun msg n => ?_⟩
  simp [get_context, rerank_by_keywords, format_context_for_llm]

/-- C9: the `dry_run` flag has no behavioral effect on `consolidate_memories`
beyond being echoed back: responses for any two flag values agree once the
echoed flag is normalized away, and whenever the response carries the flag it
carries the caller's value unchanged. -/
theorem consolidate_dry_run_no_effect :
    ∀ (mems : List MemEntry) (d d' : Bool),
      stripDryRun (consolidate_memories mems d) = stripDryRun (consolidate_memories mems d') ∧
      responseCandidates (consolidate_memories mems d) =
        responseCandidates (consolidate_memories mems d') ∧
      (responseDryRun (consolidate_memories mems d) = none ∨
        responseDryRun (consolidate_memories mems d) = some d) := by
  intro mems d d'
  by_cases h1 : mems = [] <;>
    by_cases h2 : consolidation_candidates mems = [] <;>
      simp [consolidate_memories, h1, h2, stripDryRun, responseCandidates, responseDryRun]

/-- C10: `_rerank_by_keywords` returns a permutation of its input (no memory
added or removed), each element changed only by setting the `_rerank_score`
key to its boosted score; consequently every memory returned by `get_context`
is such an updated element of the upstream result list and carries the
`_rerank_score` field. -/
theorem rerank_frame :
    ∀ (mems : List MemEntry) (q : String),
      (rerank_by_keywords mems q).Perm
        (mems.map (boostEntry (pySplit (pyLower q)).toFinset (15 / 100))) ∧
      (∀ mem : MemEntry,
        let b := boostEntry (pySplit (pyLower q)).toFinset (15 / 100) mem
        b.id = mem.id ∧ b.memory = mem.memory ∧ b.score = mem.score ∧
        b.categories = mem.categories ∧ b.other = mem.other ∧
        b.rerank_score = some ((mem.score.getD (1 / 2)) *
          (1 + (((pySplit (pyLower q)).toFinset.filter
            (fun kw => strContains (pyLower (mem.memory.getD "")) kw = true)).card : ℚ) *
            (15 / 100)))) ∧
      (∀ (n : ℕ) (m : MemEntry), m ∈ (get_context (.ok mems) q n).memories →
        ∃ m0 ∈ mems, m = boostEntry (pySplit (pyLower q)).toFinset (15 / 100) m0 ∧
          m.rerank_score ≠ none) := by
  intro mems q
  refine ⟨List.mergeSort_perm _ _, fun mem => ⟨rfl, rfl, rfl, rfl, rfl, rfl⟩, ?_⟩
  intro n m hm
  have hm' : m ∈ rerank_by_keywords mems q :=
    List.mem_of_mem_take (by simpa [get_context] using hm)
  have hm'' : m ∈ mems.map (boostEntry (pySplit (pyLower q)).toFinset (15 / 100)) := by
    simpa [rerank_by_keywords] using hm'
  obtain ⟨m0, hm0, rfl⟩ := List.mem_map.mp hm''
  exact ⟨m0, hm0, rfl, by simp [boostEntry]⟩

/-- Closed witness for C10 at a concrete one-element result list,
discharging the membership hypothesis of the `get_context` conjunct. -/
theorem rerank_frame_witness :
    ∃ m0 ∈ [({ memory := some "pizza" } : MemEntry)],
      boostEntry (pySplit (pyLower "pizza")).toFinset (15 / 100)
          { memory := some "pizza" } =
        boostEntry (pySplit (pyLower "pizza")).toFinset (15 / 100) m0 ∧
      (boostEntry (pySplit (pyLower "pizza")).toFinset (15 / 100)
          { memory := some "pizza" }).rerank_score ≠ none :=
  (rerank_frame [{ memory := some "pizza" }] "pizza").2.2 1
    (boostEntry (pySplit (pyLower "pizza")).toFinset (15 / 100) { memory := some "pizza" })
    (by simp [get_context, rerank_by_keywords])

/-- C7: `_rerank_by_keywords` boosts each memory to
`base_score * (1 + matches * 0.15)` (base defaulting to 0.5, matches
counting distinct case-folded query keywords occurring as substrings of the
lower-cased memory text), sorts descending by the boosted score with a
stable sort, and `get_context` truncates to the first `max_memories`
entries; in particular a memory with base 0.5 and 2 matches (boosted 0.65)
ranks above one with base 0.6 and 0 matches (boosted 0.6). -/
theorem rerank_by_keywords_spec :
    (∀ (mems : List MemEntry) (q : String),
      rerank_by_keywords mems q =
        (mems.map (boostEntry (pySplit (pyLower q)).toFinset (15 / 100))).mergeSort rerankLE ∧
      (∀ mem : MemEntry, (boostEntry (pySplit (pyLower q)).toFinset (15 / 100) mem).rerank_score =
        some ((mem.score.getD (1 / 2)) *
          (1 + (((pySplit (pyLower q)).toFinset.filter
            (fun kw => strContains (pyLower (mem.memory.getD "")) kw = true)).card : ℚ) *
            (15 / 100)))) ∧
      (rerank_by_keywords mems q).Pairwise (fun a b => rerankKey b ≤ rerankKey a) ∧
      (∀ v : ℚ, (rerank_by_keywords mems q).filter (fun m => decide (rerankKey m = v)) =
        (mems.map (boostEntry (pySplit (pyLower q)).toFinset (15 / 100))).filter
          (fun m => decide (rerankKey m = v))) ∧
      (∀ n : ℕ, (get_context (.ok mems) q n).memories = (rerank_by_keywords mems q).take n)) ∧
    rerank_by_keywords
      [{ id := some "B", memory := some "unrelated gamma", score := some (6 / 10) },
       { id := some "A", memory := some "alpha beta facts" }] "alpha beta" =
      [{ id := some "A", memory := some "alpha beta facts", rerank_score := some (13 / 20) },
       { id := some "B", memory := some "unrelated gamma", score := some (6 / 10),
         rerank_score := some (6 / 10) }] := by
  constructor
  · intro mems q
    refine ⟨rfl, fun mem => rfl, ?_, ?_, fun n => rfl⟩
    · have h := List.sorted_mergeSort rerankLE_trans rerankLE_total
        (mems.map (boostEntry (pySplit (pyLower q)).toFinset (15 / 100)))
      exact h.imp (fun hab => by simpa [rerankLE] using hab)
    · intro v
      have hpair : ((mems.map (boostEntry (pySplit (pyLower q)).toFinset (15 / 100))).filter
          (fun m => decide (rerankKey m = v))).Pairwise (fun a b => rerankLE a b = true) := by
        apply List.pairwise_of_forall_mem_list
        intro a ha b hb
        have hav : rerankKey a = v := by simpa using (List.mem_filter.mp ha).2
        have hbv : rerankKey b = v := by simpa using (List.mem_filter.mp hb).2
        simp [rerankLE, hav, hbv]
      have hsub := List.sublist_mergeSort rerankLE_trans rerankLE_total
        hpair (List.filter_sublist _)
      have hsub2 : ((mems.map (boostEntry (pySplit (pyLower q)).toFinset (15 / 100))).filter
          (fun m => decide (rerankKey m = v))).Sublist
          (((mems.map (boostEntry (pySplit (pyLower q)).toFinset (15 / 100))).mergeSort
            rerankLE).filter (fun m => decide (rerankKey m = v))) := by
        have := hsub.filter (fun m => decide (rerankKey m = v))
        simpa using this
      have hperm : List.Perm
          (((mems.map (boostEntry (pySplit (pyLower q)).toFinset (15 / 100))).mergeSort
            rerankLE).filter (fun m => decide (rerankKey m = v)))
          ((mems.map (boostEntry (pySplit (pyLower q)).toFinset (15 / 100))).filter
            (fun m => decide (rerankKey m = v))) :=
        (List.mergeSort_perm _ rerankLE).filter _
      exact (hsub2.eq_of_length hperm.length_eq.symm).symm
  · have hK : (pySplit (pyLower "alpha beta")).toFinset = ({"alpha", "beta"} : Finset String) := by
      decide
    have hcA : (({"alpha", "beta"} : Finset String).filter
        (fun kw => strContains (pyLower "alpha beta facts") kw = true)).card = 2 := by decide
    have hcB : (({"alpha", "beta"} : Finset String).filter
        (fun kw => strContains (pyLower "unrelated gamma") kw = true)).card = 0 := by decide
    have hA : boostEntry ({"alpha", "beta"} : Finset String) (15 / 100)
        { id := some "A", memory := some "alpha beta facts" } =
        { id := some "A", memory := some "alpha beta facts", rerank_score := some (13 / 20) } := by
      simp only [boostEntry, Option.getD_some, Option.getD_none, hcA]
      norm_num
    have hB : boostEntry ({"alpha", "beta"} : Finset String) (15 / 100)
        { id := some "B", memory := some "unrelated gamma", score := some (6 / 10) } =
        { id := some "B", memory := some "unrelated gamma", score := some (6 / 10),
          rerank_score := some (6 / 10) } := by
      simp only [boostEntry, Option.getD_some, Option.getD_none, hcB]
      norm_num
    show (([{ id := some "B", memory := some "unrelated gamma", score := some (6 / 10) },
        { id := some "A", memory := some "alpha beta facts" }].map
          (boostEntry (pySplit (pyLower "alpha beta")).toFinset (15 / 100))).mergeSort
            rerankLE) = _
    rw [hK]
    simp only [List.map_cons, List.map_nil, hA, hB]
    rw [mergeSort_pair, if_neg]
    simp only [rerankLE, rerankKey, Option.getD_some, decide_eq_true_eq]
    norm_num

/-! ## The consolidation scanner: the `checked` set is inert

The nested loops build keys `f"{i}-{j}"` from the strictly increasing pair
enumeration, so no key is ever constructed twice and the
`if pair_key in checked: continue` guard never fires. Proving that requires
injectivity of the key format, hence the following digit-string lemmas. -/

lemma digitChar_isDigit {n : ℕ} (h : n < 10) : (Nat.digitChar n).isDigit = true := by
  interval_cases n <;> decide

lemma digitChar_toNat {n : ℕ} (h : n < 10) : (Nat.digitChar n).toNat - 48 = n := by
  interval_cases n <;> decide

lemma toDigitsCore_append (fuel : ℕ) :
    ∀ (n : ℕ) (ds : List Char),
      Nat.toDigitsCore 10 fuel n ds = Nat.toDigitsCore 10 fuel n [] ++ ds := by
  induction fuel with
  | zero => intro n ds; simp [Nat.toDigitsCore]
  | succ fuel ih =>
    intro n ds
    simp only [Nat.toDigitsCore]
    by_cases h : n / 10 = 0
    · simp [h]
    · simp only [if_neg h]
      rw [ih (n / 10) [Nat.digitChar (n % 10)], ih (n / 10) (Nat.digitChar (n % 10) :: ds)]
      simp

lemma toDigitsCore_isDigit (fuel : ℕ) :
    ∀ (n : ℕ) (ds : List Char), (∀ c ∈ ds, c.isDigit = true) →
      ∀ c ∈ Nat.toDigitsCore 10 fuel n ds, c.isDigit = true := by
  induction fuel with
  | zero => intro n ds hds; simpa [Nat.toDigitsCore] using hds
  | succ fuel ih =>
    intro n ds hds
    simp only [Nat.toDigitsCore]
    have hd : (Nat.digitChar (n % 10)).isDigit = true :=
      digitChar_isDigit (Nat.mod_lt _ (by norm_num))
    by_cases h : n / 10 = 0
    · simp only [if_pos h]
      intro c hc
      rcases List.mem_cons.mp hc with rfl | hc
      · exact hd
      · exact hds c hc
    · simp only [if_neg h]
      refine ih (n / 10) _ ?_
      intro c hc
      rcases List.mem_cons.mp hc with rfl | hc
      · exact hd
      · exact hds c hc

lemma digitsVal_toDigitsCore (fuel : ℕ) :
    ∀ n : ℕ, n < fuel → digitsVal (Nat.toDigitsCore 10 fuel n []) = n := by
  induction fuel with
  | zero => intro n h; omega
  | succ fuel ih =>
    intro n h
    simp only [Nat.toDigitsCore]
    by_cases h0 : n / 10 = 0
    · simp only [if_pos h0]
      have hn : n < 10 := by omega
      simp only [digitsVal, List.foldl_cons, List.foldl_nil, Nat.mul_zero, Nat.zero_add]
      rw [digitChar_toNat (Nat.mod_lt _ (by norm_num))]
      omega
    · simp only [if_neg h0]
      rw [toDigitsCore_append]
      have ihv := ih (n / 10) (by omega)
      rw [digitsVal] at ihv ⊢
      rw [List.foldl_append, ihv]
      simp only [List.foldl_cons, List.foldl_nil]
      rw [digitChar_toNat (Nat.mod_lt _ (by norm_num))]
      omega

lemma digitsVal_repr (n : ℕ) : digitsVal (Nat.repr n).data = n := by
  have h : (Nat.repr n).data = Nat.toDigitsCore 10 (n + 1) n [] := rfl
  rw [h]
  exact digitsVal_toDigitsCore (n + 1) n (Nat.lt_succ_self n)

lemma repr_no_dash (n : ℕ) : '-' ∉ (Nat.repr n).data := by
  intro hmem
  have h : (Nat.repr n).data = Nat.toDigitsCore 10 (n + 1) n [] := rfl
  rw [h] at hmem
  have := toDigitsCore_isDigit (n + 1) n [] (by simp) '-' hmem
  simp at this

lemma append_sep_inj : ∀ (xs as ys bs : List Char),
    '-' ∉ xs → '-' ∉ as → xs ++ '-' :: ys = as ++ '-' :: bs → xs = as ∧ ys = bs := by
  intro xs
  induction xs with
  | nil =>
    intro as ys bs _ has h
    cases as with
    | nil => simpa using h
    | cons a as' =>
      simp only [List.nil_append, List.cons_append, List.cons.injEq] at h
      refine absurd ?_ has
      rw [h.1]
      exact List.mem_cons_self _ _
  | cons x xs' ih =>
    intro as ys bs hxs has h
    cases as with
    | nil =>
      simp only [List.cons_append, List.nil_append, List.cons.injEq] at h
      refine absurd ?_ hxs
      rw [← h.1]
      exact List.mem_cons_self _ _
    | cons a as' =>
      simp only [List.cons_append, List.cons.injEq] at h
      obtain ⟨rfl, h2⟩ := h
      have hrec := ih as' ys bs (fun hm => hxs (List.mem_cons_of_mem _ hm))
        (fun hm => has (List.mem_cons_of_mem _ hm)) h2
      exact ⟨by rw [hrec.1], hrec.2⟩

lemma pairKey_inj {i j a b : ℕ} (h : pairKey i j = pairKey a b) : i = a ∧ j = b := by
  have hdata : (Nat.repr i).data ++ '-' :: (Nat.repr j).data =
      (Nat.repr a).data ++ '-' :: (Nat.repr b).data := by
    have h' := congrArg String.data h
    simpa [pairKey, String.data_append] using h'
  obtain ⟨h1, h2⟩ := append_sep_inj _ _ _ _ (repr_no_dash i) (repr_no_dash a) hdata
  constructor
  · have := congrArg digitsVal h1
    rwa [digitsVal_repr, digitsVal_repr] at this
  · have := congrArg digitsVal h2
    rwa [digitsVal_repr, digitsVal_repr] at this

lemma consolidateInner_clean (mem1 : MemEntry) (i : ℕ) :
    ∀ (rest : List MemEntry) (j : ℕ) (checked : List String),
      (∀ j' : ℕ, j ≤ j' → pairKey i j' ∉ checked) →
      (consolidateInner mem1 i rest j checked).1 = innerClean mem1 rest ∧
      (∀ k, k ∈ (consolidateInner mem1 i rest j checked).2 ↔
        (∃ t : ℕ, t < rest.length ∧ k = pairKey i (j + t)) ∨ k ∈ checked) := by
  intro rest
  induction rest with
  | nil =>
    intro j checked _
    simp [consolidateInner, innerClean]
  | cons mem2 rest ih =>
    intro j checked hfresh
    have hnot : pairKey i j ∉ checked := hfresh j (le_refl j)
    have hfresh' : ∀ j' : ℕ, j + 1 ≤ j' → pairKey i j' ∉ pairKey i j :: checked := by
      intro j' hj' hmem
      rcases List.mem_cons.mp hmem with heq | hmem
      · have := (pairKey_inj heq).2; omega
      · exact hfresh j' (by omega) hmem
    have ihh := ih (j + 1) (pairKey i j :: checked) hfresh'
    have h1 : (consolidateInner mem1 i (mem2 :: rest) j checked).1 =
        innerClean mem1 (mem2 :: rest) := by
      by_cases hsim :
          calculate_similarity (mem1.memory.getD "") (mem2.memory.getD "") > 7 / 10
      · simp only [consolidateInner, innerClean, if_neg hnot, if_pos hsim]
        simpa using ihh.1
      · simp only [consolidateInner, innerClean, if_neg hnot, if_neg hsim]
        exact ihh.1
    have h2 : (consolidateInner mem1 i (mem2 :: rest) j checked).2 =
        (consolidateInner mem1 i rest (j + 1) (pairKey i j :: checked)).2 := by
      by_cases hsim :
          calculate_similarity (mem1.memory.getD "") (mem2.memory.getD "") > 7 / 10
      · simp only [consolidateInner, if_neg hnot, if_pos hsim]
      · simp only [consolidateInner, if_neg hnot, if_neg hsim]
    refine ⟨h1, fun k => ?_⟩
    rw [h2, ihh.2 k]
    simp only [List.mem_cons, List.length_cons]
    constructor
    · rintro (⟨t, ht, rfl⟩ | rfl | hk)
      · exact Or.inl ⟨t + 1, by omega, by rw [show j + (t + 1) = j + 1 + t by omega]⟩
      · exact Or.inl ⟨0, by omega, by rw [Nat.add_zero]⟩
      · exact Or.inr hk
    · rintro (⟨t, ht, rfl⟩ | hk)
      · match t with
        | 0 => exact Or.inr (Or.inl (by rw [Nat.add_zero]))
        | t + 1 => exact Or.inl ⟨t, by omega, by rw [show j + 1 + t = j + (t + 1) by omega]⟩
      · exact Or.inr (Or.inr hk)

lemma consolidateOuter_clean :
    ∀ (mems : List MemEntry) (i : ℕ) (checked : List String),
      (∀ a b : ℕ, i ≤ a → pairKey a b ∉ checked) →
      (consolidateOuter mems i checked).1 = outerClean mems := by
  intro mems
  induction mems with
  | nil => intro i checked _; simp [consolidateOuter, outerClean]
  | cons mem1 rest ih =>
    intro i checked hfresh
    have hinner := consolidateInner_clean mem1 i rest (i + 1) checked
      (fun j' _ => hfresh i j' (le_refl i))
    have hfresh' : ∀ a b : ℕ, i + 1 ≤ a →
        pairKey a b ∉ (consolidateInner mem1 i rest (i + 1) checked).2 := by
      intro a b ha hmem
      rcases (hinner.2 (pairKey a b)).mp hmem with ⟨t, _, heq⟩ | hmem'
      · have := (pairKey_inj heq).1; omega
      · exact hfresh a b (by omega) hmem'
    simp only [consolidateOuter, outerClean]
    rw [hinner.1, ih (i + 1) _ hfresh']

lemma consolidation_candidates_eq_outerClean (mems : List MemEntry) :
    consolidation_candidates mems = outerClean mems :=
  consolidateOuter_clean mems 0 [] (fun _ _ _ => List.not_mem_nil _)

lemma mem_indexPairs {n : ℕ} {p : ℕ × ℕ} : p ∈ indexPairs n ↔ p.1 < p.2 ∧ p.2 < n := by
  rcases p with ⟨i, j⟩
  simp only [indexPairs, List.mem_flatMap, List.mem_map, List.mem_filter, List.mem_range]
  constructor
  · rintro ⟨a, ha, j', ⟨hj', hlt⟩, heq⟩
    obtain ⟨rfl, rfl⟩ := Prod.mk.injEq a j' i j ▸ heq
    exact ⟨by simpa using hlt, hj'⟩
  · rintro ⟨hij, hjn⟩
    exact ⟨i, by omega, j, ⟨hjn, by simpa using hij⟩, rfl⟩

lemma indexPairs_pairwise (n : ℕ) :
    (indexPairs n).Pairwise (fun p q => p.1 < q.1 ∨ (p.1 = q.1 ∧ p.2 < q.2)) := by
  rw [indexPairs, List.pairwise_flatMap]
  constructor
  · intro i _
    rw [List.pairwise_map]
    exact ((List.pairwise_lt_range n).filter _).imp (fun hab => Or.inr ⟨rfl, hab⟩)
  · refine (List.pairwise_lt_range n).imp ?_
    intro a b hab x hx y hy
    obtain ⟨j, _, rfl⟩ := List.mem_map.mp hx
    obtain ⟨j', _, rfl⟩ := List.mem_map.mp hy
    exact Or.inl hab

lemma indexPairs_nodup (n : ℕ) : (indexPairs n).Nodup := by
  refine (indexPairs_pairwise n).imp ?_
  rintro p q (hlt | ⟨heq, hlt⟩) rfl
  · omega
  · omega

lemma indexPairs_succ (n : ℕ) :
    indexPairs (n + 1) =
      (List.range n).map (fun k => (0, k + 1)) ++
        (indexPairs n).map (fun p => (p.1 + 1, p.2 + 1)) := by
  rw [indexPairs, List.range_succ_eq_map, List.flatMap_cons]
  congr 1
  · rw [List.filter_cons_of_neg (by decide)]
    rw [List.filter_eq_self.mpr ?hall, List.map_map]
    · rfl
    case hall =>
      intro a ha
      obtain ⟨k, _, rfl⟩ := List.mem_map.mp ha
      simp
  · rw [List.flatMap_map, indexPairs, List.map_flatMap]
    congr 1
    funext i
    rw [List.filter_cons_of_neg (by simp), List.filter_map]
    rw [List.filter_congr (fun k _ => by
      show decide (i + 1 < Nat.succ k) = decide (i < k)
      simp [Nat.succ_lt_succ_iff])]
    rw [List.map_map, List.map_map]
    rfl

lemma innerClean_eq_filterMap (mem1 : MemEntry) :
    ∀ rest : List MemEntry,
      innerClean mem1 rest = (List.range rest.length).filterMap (fun t =>
        let m2 := rest.getD t default
        let s := calculate_similarity (mem1.memory.getD "") (m2.memory.getD "")
        if s > 7 / 10 then some (mkCandidate mem1 m2 s) else none) := by
  intro rest
  induction rest with
  | nil => simp [innerClean]
  | cons mem2 rest ih =>
    rw [List.length_cons, List.range_succ_eq_map, List.filterMap_cons, List.filterMap_map]
    by_cases hsim : calculate_similarity (mem1.memory.getD "") (mem2.memory.getD "") > 7 / 10
    · simp only [innerClean, if_pos hsim, List.getD_cons_zero]
      congr 1
    · simp only [innerClean, if_neg hsim, List.getD_cons_zero]
      rw [ih]
      rfl

lemma specScan_cons (mem1 : MemEntry) (rest : List MemEntry) :
    specScan (mem1 :: rest) = innerClean mem1 rest ++ specScan rest := by
  rw [specScan, List.length_cons, indexPairs_succ, List.filterMap_append]
  congr 1
  · rw [List.filterMap_map, innerClean_eq_filterMap]
    congr 1
  · rw [List.filterMap_map, specScan]
    congr 1

/-- C6: `consolidate_memories` performs one pass over the ordered
enumeration of index pairs `(i, j)`, `i < j`, of the user's memories — the
`checked` bookkeeping set never suppresses a pair — emitting a candidate
exactly when the pair's similarity strictly exceeds 0.7; the enumeration
contains every pair with `i < j < N` exactly once, in
first-index-then-second-index order, so the output is deterministic for a
fixed input order and mentions each unordered pair at most once. -/
theorem consolidate_memories_scan_spec :
    (∀ mems : List MemEntry, consolidation_candidates mems = specScan mems) ∧
    (∀ (n : ℕ) (p : ℕ × ℕ), p ∈ indexPairs n ↔ p.1 < p.2 ∧ p.2 < n) ∧
    (∀ n : ℕ, (indexPairs n).Pairwise (fun p q => p.1 < q.1 ∨ (p.1 = q.1 ∧ p.2 < q.2))) ∧
    (∀ n : ℕ, (indexPairs n).Nodup) ∧
    (∀ (mems : List MemEntry) (d : Bool),
      responseCandidates (consolidate_memories mems d) = none ∨
      responseCandidates (consolidate_memories mems d) = some (consolidation_candidates mems)) := by
  refine ⟨?_, fun n p => mem_indexPairs, indexPairs_pairwise, indexPairs_nodup, ?_⟩
  · intro mems
    rw [consolidation_candidates_eq_outerClean]
    induction mems with
    | nil => rfl
    | cons mem1 rest ih => rw [outerClean, specScan_cons, ih]
  · intro mems d
    by_cases h1 : mems = [] <;> by_cases h2 : consolidation_candidates mems = [] <;>
      simp [consolidate_memories, h1, h2, responseCandidates]

end Mem0
